import Mathlib

/-!
Verification of the Anamnesa RAG retrieval subsystem (rag-system/) against its
specification.  The Python sources are shallowly embedded: pure functions become
Lean functions over `List`/`ℚ`/`String`, floating point numbers are modelled by
rationals, and Python exceptions by `Except`.  Third-party library calls
(NLTK stemmer, rank_bm25 scoring, faiss serialization, the sentence-transformer
embedder, the Gemini generator) are modelled as abstract function parameters
carried in the state records, since their code is external to the repository.
-/

namespace Anamnesa

/-! ## Tokenizer (bm25_search.py, `BM25Search.preprocess_text`, lines 104-147) -/

/-- True for a lowercase ASCII letter or an ASCII digit, the characters kept by
the cleaning step `re.sub(r"[^a-zA-Z0-9\s]", " ", text)` after `text.lower()`. -/
def isLowerAlnum (c : Char) : Bool :=
  (decide ('a' ≤ c) && decide (c ≤ 'z')) || (decide ('0' ≤ c) && decide (c ≤ '9'))

/-- The cleaning pass of `preprocess_text`: lowercase every character, keep
lowercase alphanumerics and whitespace, and replace every other character by a
single space.  (After `str.lower`, no ASCII uppercase letter remains, so the
`A-Z` range of the regex is inert.) -/
def pyLowerClean (text : String) : List Char :=
  text.data.map fun c =>
    let c2 := c.toLower
    if isLowerAlnum c2 then c2 else if c2.isWhitespace then c2 else ' '

/-- Whitespace splitting, accumulating the current word in reverse.  This models
`nltk.word_tokenize` on cleaned (alphanumeric plus whitespace) text, which the
source degrades to `text.split()` when NLTK is unavailable; on such text both
produce maximal non-whitespace runs. -/
def splitWsAux : List Char → List Char → List String
  | [], cur => if cur.isEmpty then [] else [String.mk cur.reverse]
  | c :: cs, cur =>
    if c.isWhitespace then
      if cur.isEmpty then splitWsAux cs []
      else String.mk cur.reverse :: splitWsAux cs []
    else splitWsAux cs (c :: cur)

/-- Split a character list into maximal non-whitespace runs. -/
def splitWs (cs : List Char) : List String := splitWsAux cs []

/-- Tokenizer configuration of `BM25Search.__init__`.  The `stem` field models
the NLTK `PorterStemmer.stem` method, a third-party black box. -/
structure TokenizerConfig where
  useStemming : Bool
  removeStopwords : Bool
  minWordLength : Nat
  stopwords : List String
  stem : String → String

/-- `BM25Search.preprocess_text`: empty input yields `[]`; otherwise lowercase,
strip non-alphanumerics, tokenize, then per token: skip tokens shorter than
`min_word_length`, skip stop-words (checked before stemming), stem when enabled,
and append.  The skip/append loop is rendered as `filterMap`. -/
def preprocessText (cfg : TokenizerConfig) (text : String) : List String :=
  if text = "" then []
  else
    (splitWs (pyLowerClean text)).filterMap fun token =>
      if token.length < cfg.minWordLength then none
      else if cfg.removeStopwords && cfg.stopwords.contains token then none
      else some (if cfg.useStemming then cfg.stem token else token)

/-! ## Sparse index (bm25_search.py, `BM25Search`) -/

/-- A document record as consumed by the search classes: the `id`, `title` and
`content` fields of the Python dict. -/
structure DocRecord where
  id : String
  title : String
  content : String
deriving DecidableEq

/-- State of `BM25Search`.  The `okapiBuilder` field models the third-party
`rank_bm25.BM25Okapi` constructor: given the tokenized corpus it yields the
`get_scores` function from query tokens to per-document scores.  `bm25 = none`
models `self.bm25 is None`. -/
structure BM25Search where
  cfg : TokenizerConfig
  language : String
  k1 : ℚ
  b : ℚ
  okapiBuilder : List (List String) → List String → List ℚ
  bm25 : Option (List String → List ℚ)
  documents : List DocRecord
  tokenizedDocs : List (List String)
  docIds : List String

/-- Python `str.strip()` on the title/content concatenation. -/
def pyStrip (s : String) : String :=
  String.mk (((s.data.dropWhile Char.isWhitespace).reverse.dropWhile Char.isWhitespace).reverse)

/-- One iteration of the document loop of `BM25Search.add_documents`
(lines 163-179): documents whose `content` is falsy are skipped with a warning;
otherwise title and content are joined by one space, stripped, preprocessed, and
the document is appended only when the token stream is non-empty. -/
def bm25AddOne (s : BM25Search) (doc : DocRecord) : BM25Search :=
  if doc.content = "" then s
  else if (preprocessText s.cfg (pyStrip (doc.title ++ " " ++ doc.content))).isEmpty then s
  else
    { s with documents := s.documents ++ [doc],
             tokenizedDocs :=
               s.tokenizedDocs ++ [preprocessText s.cfg (pyStrip (doc.title ++ " " ++ doc.content))],
             docIds := s.docIds ++ [doc.id] }

/-- `BM25Search.add_documents` (lines 149-186): early return on an empty input
list, the per-document loop, then a rebuild of the `BM25Okapi` model when at
least one tokenized document exists. -/
def bm25AddDocuments (s : BM25Search) (docs : List DocRecord) : BM25Search :=
  if docs.isEmpty then s
  else
    let s1 := docs.foldl bm25AddOne s
    if s1.tokenizedDocs.isEmpty then s1
    else { s1 with bm25 := some (s1.okapiBuilder s1.tokenizedDocs) }

/-- Sort key realizing `np.argsort(scores)[::-1]`: score descending, ties by
ascending position.  (NumPy leaves the tie order of its default sort
unspecified; every property proved below is insensitive to the tie choice.) -/
def argsortDescKey (p : ℕ × ℚ) : Lex (ℚᵒᵈ × ℕ) :=
  toLex (OrderDual.toDual p.2, p.1)

/-- Indices of `scores` ordered by decreasing score, as produced by
`np.argsort(scores)[::-1]`. -/
def npArgsortDesc (scores : List ℚ) : List ℕ :=
  (List.insertionSort (fun a b => argsortDescKey a ≤ argsortDescKey b) scores.enum).map Prod.fst

/-- Placeholder record for the (unreachable) out-of-range list accesses. -/
def defaultDoc : DocRecord := ⟨"", "", ""⟩

/-- A hit returned by `BM25Search.search`: the document plus the keys the
method attaches (`bm25_score`, `rank`, `matched_tokens`). -/
structure BM25Hit where
  doc : DocRecord
  score : ℚ
  rank : ℕ
  matchedTokens : List String
deriving DecidableEq

/-- `BM25Search.search` (lines 188-228): empty result when the model is absent
or the corpus empty, empty result when the preprocessed query has no tokens;
otherwise score all documents, walk `np.argsort(scores)[::-1][:min(top_k, n)]`
with `enumerate`, skip non-positive scores, and attach score, rank `i+1` and the
matched query tokens. -/
def bm25Search (s : BM25Search) (query : String) (topK : ℕ) : List BM25Hit :=
  match s.bm25 with
  | none => []
  | some scorer =>
    if s.documents.isEmpty then []
    else if (preprocessText s.cfg query).isEmpty then []
    else
      ((npArgsortDesc (scorer (preprocessText s.cfg query))).take
          (min topK s.documents.length)).enum.filterMap fun p =>
        if (scorer (preprocessText s.cfg query)).getD p.2 0 ≤ 0 then none
        else some
          { doc := s.documents.getD p.2 defaultDoc,
            score := (scorer (preprocessText s.cfg query)).getD p.2 0,
            rank := p.1 + 1,
            matchedTokens := (preprocessText s.cfg query).filter
              (fun t => (s.tokenizedDocs.getD p.2 []).contains t) }

/-! ## Dense index (faiss_vector_db.py, `FaissVectorDB`) -/

/-- Inner product of two vectors, the score of `faiss.IndexFlatIP`. -/
def dotQ : List ℚ → List ℚ → ℚ
  | a :: as, b :: bs => a * b + dotQ as bs
  | _, _ => 0

/-- Sum of squares; a stored embedding is L2-normalized exactly when this is 1. -/
def sumSq : List ℚ → ℚ
  | [] => 0
  | a :: as => a * a + sumSq as

/-- State of `FaissVectorDB` as configured by the hybrid engine
(`index_type="Flat"`).  `index = some vecs` holds the stored vectors of the
`IndexFlatIP`; `embedQuery` models `create_query_embedding` (the
sentence-transformer encoder followed by normalization, returning a zero vector
on upstream failure). -/
structure FaissVectorDB where
  documents : List DocRecord
  docIds : List String
  index : Option (List (List ℚ))
  dimension : ℕ
  indexType : String
  nlist : ℕ
  isTrained : Bool
  embeddingModel : String
  embedQuery : String → List ℚ

/-- A hit returned by `FaissVectorDB.search` (`similarity_score`, `rank`). -/
structure FaissHit where
  doc : DocRecord
  score : ℚ
  rank : ℕ
deriving DecidableEq

/-- `FaissVectorDB.search` (lines 213-257) for the `Flat` index: empty result
when the index is absent or the corpus empty, empty result when the query
embedding is all zeros (`not np.any`); otherwise exact inner-product search
returns the `min(top_k, n)` best indices by decreasing score and every hit is
kept with score and rank `i+1`.  (The `idx == -1` skip of the source is the
FAISS padding convention for `k > ntotal`, which cannot occur here since the
requested count is clamped by `min(top_k, len(documents))`.) -/
def faissSearch (db : FaissVectorDB) (query : String) (topK : ℕ) : List FaissHit :=
  match db.index with
  | none => []
  | some vecs =>
    if db.documents.isEmpty then []
    else if (db.embedQuery query).all (fun x => decide (x = 0)) then []
    else
      ((npArgsortDesc (vecs.map (dotQ (db.embedQuery query)))).take
          (min topK db.documents.length)).enum.map fun p =>
        { doc := db.documents.getD p.2 defaultDoc,
          score := (vecs.map (dotQ (db.embedQuery query))).getD p.2 0,
          rank := p.1 + 1 }

/-! ## Persistence (save_index / load_index of both indexes) -/

/-- The pickled payload of `BM25Search.save_index` (lines 242-265): the model,
the aligned lists, and the scalar configuration entries.  The stop-word set and
the stemmer object are not part of the payload. -/
structure BM25SavedIndex where
  bm25 : Option (List String → List ℚ)
  documents : List DocRecord
  tokenizedDocs : List (List String)
  docIds : List String
  language : String
  useStemming : Bool
  removeStopwords : Bool
  minWordLength : Nat
  k1 : ℚ
  b : ℚ

/-- `BM25Search.save_index`. -/
def bm25SaveIndex (s : BM25Search) : BM25SavedIndex :=
  { bm25 := s.bm25, documents := s.documents, tokenizedDocs := s.tokenizedDocs,
    docIds := s.docIds, language := s.language,
    useStemming := s.cfg.useStemming, removeStopwords := s.cfg.removeStopwords,
    minWordLength := s.cfg.minWordLength, k1 := s.k1, b := s.b }

/-- `BM25Search.load_index` (lines 267-289): restore the model, the lists and
the scalar configuration onto the receiving instance.  The stop-word set and
the stemmer of the receiving instance are left untouched. -/
def bm25LoadIndex (s : BM25Search) (d : BM25SavedIndex) : BM25Search :=
  { s with bm25 := d.bm25, documents := d.documents, tokenizedDocs := d.tokenizedDocs,
           docIds := d.docIds, language := d.language, k1 := d.k1, b := d.b,
           cfg := { s.cfg with useStemming := d.useStemming,
                               removeStopwords := d.removeStopwords,
                               minWordLength := d.minWordLength } }

/-- The on-disk snapshot written by `FaissVectorDB.save_index` (lines 259-286):
the serialized index (faiss `write_index`/`read_index` round-trips the binary
blob, spec section 6) plus the pickled metadata. -/
structure FaissSavedIndex where
  index : Option (List (List ℚ))
  documents : List DocRecord
  docIds : List String
  dimension : ℕ
  indexType : String
  nlist : ℕ
  isTrained : Bool
  embeddingModel : String

/-- `FaissVectorDB.save_index`. -/
def faissSaveIndex (db : FaissVectorDB) : FaissSavedIndex :=
  { index := db.index, documents := db.documents, docIds := db.docIds,
    dimension := db.dimension, indexType := db.indexType, nlist := db.nlist,
    isTrained := db.isTrained, embeddingModel := db.embeddingModel }

/-- `FaissVectorDB.load_index` (lines 288-311): restore the index and metadata.
The `embedding_model` entry of the metadata is stored but not restored, and the
encoder of the receiving instance is left untouched. -/
def faissLoadIndex (db : FaissVectorDB) (d : FaissSavedIndex) : FaissVectorDB :=
  { db with index := d.index, documents := d.documents, docIds := d.docIds,
            dimension := d.dimension, indexType := d.indexType, nlist := d.nlist,
            isTrained := d.isTrained }

/-! ## Hybrid searcher (hybrid_search_engine.py, `HybridSearchEngine`) -/

/-- The fields of one leg result consumed by `_rerank_results`: the merge key
`result.get("id", result.get("title", ""))`, the raw score
(`similarity_score` or `bm25_score`) and the in-leg `rank`. -/
structure LegHit where
  docId : String
  score : ℚ
  rank : ℕ
deriving DecidableEq

/-- One value of the `all_docs` dict built by `_rerank_results`
(lines 227-256).  `Option` fields model dict keys that are present only after
the corresponding leg pass touched the entry; `combinedScore` is attached by
the fusion step (0 until then). -/
structure FusionEntry where
  docId : String
  vectorScore : Option ℚ
  vectorRank : Option ℕ
  keywordScore : Option ℚ
  keywordRank : Option ℕ
  hasVector : Bool
  hasKeyword : Bool
  combinedScore : ℚ
deriving DecidableEq

/-- Entry created when a vector result meets an unseen `doc_id`
(lines 233-238). -/
def mkVectorEntry (r : LegHit) : FusionEntry :=
  ⟨r.docId, some r.score, some r.rank, none, none, true, false, 0⟩

/-- Entry created when a keyword result meets an unseen `doc_id`
(lines 247-252). -/
def mkKeywordEntry (r : LegHit) : FusionEntry :=
  ⟨r.docId, none, none, some r.score, some r.rank, false, true, 0⟩

/-- One iteration of the vector loop of `_rerank_results` (lines 231-242):
insert a fresh entry or update the vector fields of the existing one, keeping
dict insertion order. -/
def addVectorResult (acc : List FusionEntry) (r : LegHit) : List FusionEntry :=
  if acc.any (fun e => e.docId == r.docId) then
    acc.map fun e =>
      if e.docId == r.docId then
        { e with vectorScore := some r.score, vectorRank := some r.rank, hasVector := true }
      else e
  else acc ++ [mkVectorEntry r]

/-- One iteration of the keyword loop of `_rerank_results` (lines 245-256). -/
def addKeywordResult (acc : List FusionEntry) (r : LegHit) : List FusionEntry :=
  if acc.any (fun e => e.docId == r.docId) then
    acc.map fun e =>
      if e.docId == r.docId then
        { e with keywordScore := some r.score, keywordRank := some r.rank, hasKeyword := true }
      else e
  else acc ++ [mkKeywordEntry r]

/-- The `all_docs` union of `_rerank_results` in dict insertion order:
the vector pass followed by the keyword pass. -/
def mergeResults (vr kr : List LegHit) : List FusionEntry :=
  kr.foldl addKeywordResult (vr.foldl addVectorResult [])

/-- The constructor arguments of `HybridSearchEngine.__init__` that the query
path reads. -/
structure HybridConfig where
  vectorWeight : ℚ
  keywordWeight : ℚ
  useParallelSearch : Bool
  vectorTopK : ℕ
  keywordTopK : ℕ
  finalTopK : ℕ
  rerankMethod : String
deriving DecidableEq

/-- Python `max` of a non-empty list (`_weighted_sum_rerank` is only reached
with a non-empty union, so the empty case is inert). -/
def pyMax : List ℚ → ℚ
  | [] => 0
  | x :: xs => xs.foldl max x

/-- Python `min` of a non-empty list. -/
def pyMin : List ℚ → ℚ
  | [] => 0
  | x :: xs => xs.foldl min x

/-- `sklearn.MinMaxScaler` applied to one member of `xs`: `(x - min)/(max - min)`,
with a constant column mapped to 0 (sklearn replaces a zero range by scale 1,
and `x - min = 0` for members of a constant column). -/
def minMaxNormalize (xs : List ℚ) (x : ℚ) : ℚ :=
  let lo := pyMin xs
  let hi := pyMax xs
  if hi = lo then 0 else (x - lo) / (hi - lo)

/-- `_weighted_sum_rerank` (lines 275-307): min-max normalize each leg column
when its maximum is positive (otherwise use zeros), gate each side by
`has_vector`/`has_keyword`, and set `combined = vw * v + kw * k`.  The source
fills the two normalized columns positionally; normalization is elementwise, so
the per-entry form below computes the same column values. -/
def weightedSumRerank (vw kw : ℚ) (docs : List FusionEntry) : List FusionEntry :=
  let vectorScores := docs.map fun e => e.vectorScore.getD 0
  let keywordScores := docs.map fun e => e.keywordScore.getD 0
  docs.map fun e =>
    let vNorm := if 0 < pyMax vectorScores then minMaxNormalize vectorScores (e.vectorScore.getD 0) else 0
    let kNorm := if 0 < pyMax keywordScores then minMaxNormalize keywordScores (e.keywordScore.getD 0) else 0
    let v := if e.hasVector then vNorm else 0
    let k := if e.hasKeyword then kNorm else 0
    { e with combinedScore := vw * v + kw * k }

/-- `_reciprocal_rank_fusion` (lines 309-326) with its default constant 60:
`combined = 1/(60 + rank_v) + 1/(60 + rank_k)`, each side gated by
`has_vector`/`has_keyword` (an absent rank key only ever occurs together with a
false flag, so its `inf` default is inert and `getD 0` is a placeholder). -/
def rrfRerank (c : ℕ) (docs : List FusionEntry) : List FusionEntry :=
  docs.map fun e =>
    let vRrf : ℚ := if e.hasVector then 1 / ((c : ℚ) + (e.vectorRank.getD 0 : ℕ)) else 0
    let kRrf : ℚ := if e.hasKeyword then 1 / ((c : ℚ) + (e.keywordRank.getD 0 : ℕ)) else 0
    { e with combinedScore := vRrf + kRrf }

/-- Matching of `needle` against the front of `hay` (character lists). -/
def segStarts : List Char → List Char → Bool
  | [], _ => true
  | _ :: _, [] => false
  | a :: as, b :: bs => a == b && segStarts as bs

/-- Python substring test `needle in hay` on character lists. -/
def segContains (needle : List Char) : List Char → Bool
  | [] => needle.isEmpty
  | c :: rest => segStarts needle (c :: rest) || segContains needle rest

/-- Python `needle in hay` for strings. -/
def strHasSub (hay needle : String) : Bool := segContains needle.data hay.data

/-- The hard-coded Indonesian trigger terms of `_adaptive_rerank`. -/
def medicalTriggerTerms : List String :=
  ["penyakit", "gejala", "diagnosis", "pengobatan", "terapi"]

/-- The weight selection of `_adaptive_rerank` (lines 328-351): quoted phrase or
at most three whitespace tokens favors keywords (0.3/0.7); a medical trigger
term favors vectors (0.7/0.3); otherwise the configured weights. -/
def adaptiveWeights (cfg : HybridConfig) (query : String) : ℚ × ℚ :=
  let lowered := String.mk (query.data.map Char.toLower)
  let queryTokens := splitWs lowered.data
  let hasMedicalTerms := medicalTriggerTerms.any (fun t => strHasSub lowered t)
  let isShortQuery := queryTokens.length ≤ 3
  let hasExactPhrases := strHasSub query (String.mk ['"'])
  if hasExactPhrases || isShortQuery then (3/10, 7/10)
  else if hasMedicalTerms then (7/10, 3/10)
  else (cfg.vectorWeight, cfg.keywordWeight)

/-- The fusion dispatch of `_rerank_results` (lines 261-269): `weighted_sum`,
`rrf`, `adaptive` (weighted sum under query-dependent weights, restored after
the call), and a warning plus `weighted_sum` for anything else. -/
def applyFusion (cfg : HybridConfig) (query : String) (docs : List FusionEntry) :
    List FusionEntry :=
  if cfg.rerankMethod = "weighted_sum" then
    weightedSumRerank cfg.vectorWeight cfg.keywordWeight docs
  else if cfg.rerankMethod = "rrf" then rrfRerank 60 docs
  else if cfg.rerankMethod = "adaptive" then
    let w := adaptiveWeights cfg query
    weightedSumRerank w.1 w.2 docs
  else weightedSumRerank cfg.vectorWeight cfg.keywordWeight docs

/-- Sort key of the final `combined_docs.sort(key=..., reverse=True)`:
Python sorting is stable, and a stable descending sort equals sorting the
`(position, entry)` pairs by combined score descending, position ascending. -/
def stableSortKey (p : ℕ × FusionEntry) : Lex (ℚᵒᵈ × ℕ) :=
  toLex (OrderDual.toDual p.2.combinedScore, p.1)

/-- The stable descending sort by `combined_score` of line 272. -/
def pyStableSortByCombinedDesc (docs : List FusionEntry) : List FusionEntry :=
  (List.insertionSort (fun a b => stableSortKey a ≤ stableSortKey b) docs.enum).map Prod.snd

/-- `_rerank_results` (lines 210-273): early return when both legs are empty,
otherwise merge, fuse, sort by combined score descending (stable) and truncate
to `top_k`. -/
def rerankResults (cfg : HybridConfig) (query : String)
    (vectorResults keywordResults : List LegHit) (topK : ℕ) : List FusionEntry :=
  if vectorResults.isEmpty && keywordResults.isEmpty then []
  else
    (pyStableSortByCombinedDesc
      (applyFusion cfg query (mergeResults vectorResults keywordResults))).take topK

/-- Rank of a possibly absent in-leg rank, an absent rank comparing greater
than every present one. -/
def rankKey : Option ℕ → WithTop ℕ
  | some r => (r : WithTop ℕ)
  | none => ⊤

/-- The ordering key stated by the specification (section 4.F step 4): combined
score descending, ties by lower dense rank, then lower sparse rank, then
lexicographically smaller `doc_id`. -/
def specSortKey (e : FusionEntry) :
    Lex (ℚᵒᵈ × Lex ((WithTop ℕ) × Lex ((WithTop ℕ) × List Char))) :=
  toLex (OrderDual.toDual e.combinedScore,
    toLex (rankKey e.vectorRank, toLex (rankKey e.keywordRank, e.docId.data)))

/-- Re-ranking stated in the specification words: sort the fused union by
`specSortKey` and return the top `k`.  This is the reference point the code
implementation is compared against. -/
def specRerank (cfg : HybridConfig) (query : String)
    (vectorResults keywordResults : List LegHit) (topK : ℕ) : List FusionEntry :=
  (List.insertionSort (fun a b => specSortKey a ≤ specSortKey b)
    (applyFusion cfg query (mergeResults vectorResults keywordResults))).take topK

/-- Well-formedness of one leg result list as produced by either engine:
merge keys are pairwise distinct and ranks strictly increase along the list
(both engines emit `rank = i + 1` over an enumeration). -/
def LegWellFormed (l : List LegHit) : Prop :=
  (l.map LegHit.docId).Nodup ∧ (l.map LegHit.rank).Pairwise (· < ·)

/-! ## Hybrid engine search paths (hybrid_search_engine.py, lines 117-208) -/

/-- State of `HybridSearchEngine`: the configuration and the two owned
engines. -/
structure HybridSearchEngine where
  cfg : HybridConfig
  vectorDb : FaissVectorDB
  keywordIndex : BM25Search

/-- Leg-hit view of a dense hit (`doc_id` from the `id` key of the document
dict, score from `similarity_score`). -/
def denseLegHits (hits : List FaissHit) : List LegHit :=
  hits.map fun h => ⟨h.doc.id, h.score, h.rank⟩

/-- Leg-hit view of a sparse hit (score from `bm25_score`). -/
def sparseLegHits (hits : List BM25Hit) : List LegHit :=
  hits.map fun h => ⟨h.doc.id, h.score, h.rank⟩

/-- `_vector_search` (lines 186-196): the dense leg; its body catches every
exception and returns `[]`, and `FaissVectorDB.search` is total here, so the
leg is a pure function. -/
def vectorSearchLeg (h : HybridSearchEngine) (query : String) : List LegHit :=
  denseLegHits (faissSearch h.vectorDb query h.cfg.vectorTopK)

/-- `_keyword_search` (lines 198-208): the sparse leg. -/
def keywordSearchLeg (h : HybridSearchEngine) (query : String) : List LegHit :=
  sparseLegHits (bm25Search h.keywordIndex query h.cfg.keywordTopK)

/-- `_sequential_search` (lines 180-184). -/
def sequentialSearchLegs (h : HybridSearchEngine) (query : String) :
    List LegHit × List LegHit :=
  (vectorSearchLeg h query, keywordSearchLeg h query)

/-- `_parallel_search` (lines 158-178): both futures are submitted, then
`as_completed` yields them in an arbitrary completion order and the loop binds
each result by comparing future identities.  `vectorFirst` is the completion
order chosen by the scheduler; both local result lists start empty. -/
def parallelSearchLegs (h : HybridSearchEngine) (query : String)
    (vectorFirst : Bool) : List LegHit × List LegHit :=
  let completionOrder := if vectorFirst then [true, false] else [false, true]
  completionOrder.foldl
    (fun acc isVectorFuture =>
      if isVectorFuture then (vectorSearchLeg h query, acc.2)
      else (acc.1, keywordSearchLeg h query))
    ([], [])

/-- A fully decorated result of `HybridSearchEngine.search` (lines 148-152):
the fused entry plus `final_rank`, `search_engine` and `query`. -/
structure HybridResult where
  entry : FusionEntry
  finalRank : ℕ
  searchEngine : String
  query : String
deriving DecidableEq

/-- `HybridSearchEngine.search` (lines 117-156): pick `top_k` (defaulting to
`final_top_k`), run the two legs in parallel or sequentially, re-rank, and
decorate the final list.  `vectorFirst` is the leg completion order, observable
only by the parallel path. -/
def hybridSearch (h : HybridSearchEngine) (query : String) (topK : Option ℕ)
    (vectorFirst : Bool) : List HybridResult :=
  let k := topK.getD h.cfg.finalTopK
  let legs :=
    if h.cfg.useParallelSearch then parallelSearchLegs h query vectorFirst
    else sequentialSearchLegs h query
  let finalResults := rerankResults h.cfg query legs.1 legs.2 k
  finalResults.enum.map fun p => ⟨p.2, p.1 + 1, "hybrid", query⟩

/-- The engine with its parallel flag replaced. -/
def setParallel (h : HybridSearchEngine) (b : Bool) : HybridSearchEngine :=
  { h with cfg := { h.cfg with useParallelSearch := b } }

/-! ## Index cache freshness (api_retriever.py, `_is_cache_valid`,
`_count_documents_quickly`, lines 115-179) -/

/-- A source record viewed by the quick structural count: only the presence of
the `content` and `title` keys matters. -/
structure SourceRecord where
  hasContent : Bool
  hasTitle : Bool
deriving DecidableEq

/-- The JSON shapes `_count_documents_quickly` distinguishes. -/
inductive JsonShape where
  | recordList (items : List SourceRecord)
  | papersDict (papers : List SourceRecord)
  | documentsDict (docs : List SourceRecord)
  | contentDict
  | otherDict
deriving DecidableEq

/-- One `*.json` file of the data directory: name, modification time, and its
parse result (`none` models a `json.load` failure, skipped by the count). -/
structure DataFile where
  name : String
  mtime : ℚ
  parsed : Option JsonShape
deriving DecidableEq

/-- The parsed `cache_info.json` manifest. -/
structure CacheManifest where
  timestamp : ℚ
  documentCount : ℤ
deriving DecidableEq

/-- The filesystem state that `_is_cache_valid` inspects. -/
structure CacheFs where
  vectorIndexExists : Bool
  vectorMetadataExists : Bool
  bm25IndexExists : Bool
  cacheInfoExists : Bool
  manifest : Option CacheManifest
  dataFiles : List DataFile
deriving DecidableEq

/-- Filename test `json_file.name.startswith(".")`. -/
def startsWithDot (n : String) : Bool :=
  match n.data with
  | c :: _ => c == '.'
  | [] => false

/-- Number of records of a list that carry a `content` or `title` key. -/
def countRecords (rs : List SourceRecord) : ℕ :=
  (rs.filter fun r => r.hasContent || r.hasTitle).length

/-- `_count_documents_quickly` (lines 155-179): walk the non-dot `*.json`
files, skip unparseable ones, and add the structural count of each recognized
shape.  The function returns an integer. -/
def countDocumentsQuickly (fs : CacheFs) : ℕ :=
  fs.dataFiles.foldl
    (fun acc f =>
      if startsWithDot f.name then acc
      else
        match f.parsed with
        | none => acc
        | some (.recordList items) => acc + countRecords items
        | some (.papersDict papers) => acc + countRecords papers
        | some (.documentsDict docs) => acc + countRecords docs
        | some .contentDict => acc + 1
        | some .otherDict => acc)
    0

/-- The Python exceptions the embedding distinguishes. -/
inductive PyError where
  | typeError
  | jsonError
  | attributeError
  | valueError
deriving DecidableEq

/-- The body of `_is_cache_valid` (lines 117-149) before its exception handler:
return `false` when an index file or the manifest file is missing, raise when
the manifest does not parse, return `false` at the first non-dot data file
newer than the manifest timestamp; then line 142 computes
`len(self._count_documents_quickly())` — but `_count_documents_quickly` returns
an `int`, and `len` of an `int` raises `TypeError`. -/
def isCacheValidCore (fs : CacheFs) : Except PyError Bool :=
  if ¬(fs.vectorIndexExists && fs.vectorMetadataExists && fs.bm25IndexExists) then .ok false
  else if ¬fs.cacheInfoExists then .ok false
  else
    match fs.manifest with
    | none => .error .jsonError
    | some info =>
      if fs.dataFiles.any (fun f => !startsWithDot f.name && decide (info.timestamp < f.mtime))
      then .ok false
      else
        let _currentCount := countDocumentsQuickly fs
        .error .typeError

/-- `_is_cache_valid`: the body above wrapped by `except Exception: return
False` (lines 151-153). -/
def isCacheValid (fs : CacheFs) : Bool :=
  match isCacheValidCore fs with
  | .ok b => b
  | .error _ => false

/-- The freshness predicate exactly as the specification states it (section
4.G): all four files exist, every non-dot source mtime is at most the manifest
timestamp, and the quick count differs from the manifest count by at most
100. -/
def cacheValidClaim (fs : CacheFs) : Bool :=
  fs.vectorIndexExists && fs.vectorMetadataExists && fs.bm25IndexExists &&
  fs.cacheInfoExists &&
  (match fs.manifest with
   | none => false
   | some info =>
     fs.dataFiles.all (fun f => startsWithDot f.name || decide (f.mtime ≤ info.timestamp)) &&
     decide (((countDocumentsQuickly fs : ℤ) - info.documentCount).natAbs ≤ 100))

/-! ## rag_query and its fallback (api_retriever.py, lines 301-497) -/

/-- A document dict shaped for the `retrieved_documents` payload. -/
structure RetrievedDoc where
  title : String
  source : String
  content : String
  score : ℚ
  searchMethod : String
deriving DecidableEq

/-- Outcome of the document-retrieval step of `rag_query`: a result list, a
`TimeoutException` raised by the alarm handler, or another exception. -/
inductive SearchOutcome where
  | ok (docs : List RetrievedDoc)
  | timeout
  | failure (e : PyError)
deriving DecidableEq

/-- The `metadata` object of the three result shapes.  `searchEngine = none`
models an absent `search_engine` key; `errorFlag` is the `error` key
(default false). -/
structure RagMetadata where
  numRetrievedDocs : ℕ
  searchEngine : Option String
  errorFlag : Bool
  hybridFailed : Bool
  fallbackFailed : Bool
  fallbackUsed : Bool
  totalDocumentsAvailable : Option ℕ
deriving DecidableEq

/-- The result dict of `rag_query` / `_rag_query_fallback`. -/
structure RagResult where
  error : Option String
  query : String
  response : String
  retrievedDocuments : List RetrievedDoc
  metadata : RagMetadata
deriving DecidableEq

/-- Decidable equality for `Except`, used to evaluate the embedded `rag_query`
on concrete environments. -/
instance {ε α : Type} [DecidableEq ε] [DecidableEq α] : DecidableEq (Except ε α) := fun a b =>
  match a, b with
  | .ok x, .ok y => decidable_of_iff (x = y) (by simp)
  | .error x, .error y => decidable_of_iff (x = y) (by simp)
  | .ok _, .error _ => isFalse (by simp)
  | .error _, .ok _ => isFalse (by simp)

/-- The environment a single `rag_query` call runs in: the instance flags plus
the behavior of every external effect (searches, generation, fallback
re-initialization). -/
structure RagEnv where
  query : String
  useHybrid : Bool
  hasOriginalRetriever : Bool
  hybridSearchOutcome : SearchOutcome
  hybridResponse : String
  originalDocsCount : ℕ
  initFallback : Except PyError Unit
  fallbackSearch : Except PyError (List RetrievedDoc)
  fallbackResponse : String
deriving DecidableEq

/-- `str(e)` of the modelled exceptions. -/
def pyErrorMessage : PyError → String
  | .typeError => "object of type int has no len()"
  | .jsonError => "Expecting value"
  | .attributeError => "FaissVectorDB object has no attribute get"
  | .valueError => "ValueError"

/-- The apology string shared by the error shapes. -/
def apologyMessage : String :=
  "Maaf, terjadi kesalahan saat memproses permintaan Anda."

/-- `_rag_query_fallback` (lines 447-497): a successful original-retriever
search yields the `original_fallback` success shape; any exception yields the
structured error dict with `metadata = {error: True, fallback_used: True}`.
The function never raises. -/
def ragQueryFallback (env : RagEnv) : RagResult :=
  match env.fallbackSearch with
  | .ok docs =>
    { error := none, query := env.query, response := env.fallbackResponse,
      retrievedDocuments := docs,
      metadata :=
        { numRetrievedDocs := docs.length, searchEngine := some "original_fallback",
          errorFlag := false, hybridFailed := false, fallbackFailed := false,
          fallbackUsed := false, totalDocumentsAvailable := none } }
  | .error e =>
    { error := some (pyErrorMessage e), query := env.query, response := apologyMessage,
      retrievedDocuments := [],
      metadata :=
        { numRetrievedDocs := 0, searchEngine := none, errorFlag := true,
          hybridFailed := false, fallbackFailed := false, fallbackUsed := true,
          totalDocumentsAvailable := none } }

/-- The evaluation of
`getattr(self.hybrid_engine, "vector_db", {}).get("total_documents", 0)`
(line 407): `hybrid_engine.vector_db` exists, so `getattr` returns the
`FaissVectorDB` object, and the class (faiss_vector_db.py lines 22-73) defines
no method `get`, so the call raises `AttributeError`. -/
def faissVectorDbGetTotalDocuments : Except PyError ℕ :=
  .error .attributeError

/-- `search_documents` (lines 301-306) as called from the hybrid path of
`rag_query`: the hybrid engine when `use_hybrid` is set; otherwise the
attribute access `self.original_retriever` raises when the attribute is
missing, and delegates to the original retriever when present. -/
def searchDocumentsStep (env : RagEnv) : SearchOutcome :=
  if env.useHybrid then env.hybridSearchOutcome
  else if env.hasOriginalRetriever then
    match env.fallbackSearch with
    | .ok docs => .ok docs
    | .error e => .failure e
  else .failure .attributeError

/-- Construction of the success result of `rag_query` (lines 390-418).  The
`total_documents_available` entry is evaluated while the metadata dict is
built; on the hybrid path it raises `AttributeError`
(`faissVectorDbGetTotalDocuments`). -/
def buildHybridSuccessResult (env : RagEnv) (docs : List RetrievedDoc) :
    Except PyError RagResult :=
  match (if env.useHybrid then faissVectorDbGetTotalDocuments
         else .ok env.originalDocsCount) with
  | .error e => .error e
  | .ok totalDocs =>
    .ok
      { error := none, query := env.query, response := env.hybridResponse,
        retrievedDocuments := docs,
        metadata :=
          { numRetrievedDocs := docs.length,
            searchEngine := some (if env.useHybrid then "hybrid" else "original"),
            errorFlag := false, hybridFailed := false, fallbackFailed := false,
            fallbackUsed := false, totalDocumentsAvailable := some totalDocs } }

/-- The `except Exception` branch of `rag_query` (lines 427-441): disable
hybrid, try to re-initialize the original retriever and retry; when the
re-initialization itself raises, return the structured double-failure dict. -/
def hybridExceptionHandler (env : RagEnv) (e : PyError) : Except PyError RagResult :=
  match env.initFallback with
  | .ok _ => .ok (ragQueryFallback env)
  | .error fe =>
    .ok
      { error := some ("Both hybrid and fallback failed: " ++ pyErrorMessage e ++ ", "
          ++ pyErrorMessage fe),
        query := env.query, response := apologyMessage, retrievedDocuments := [],
        metadata :=
          { numRetrievedDocs := 0, searchEngine := none, errorFlag := true,
            hybridFailed := true, fallbackFailed := true, fallbackUsed := false,
            totalDocumentsAvailable := none } }

/-- `rag_query` (lines 361-445): immediate fallback when hybrid is disabled and
the original retriever exists; otherwise search and build the result, routing a
generic exception through the guarded handler.  The `except TimeoutException`
branch (lines 420-425) re-initializes the original retriever and retries with
no surrounding `try`, so an exception raised there propagates to the caller. -/
def ragQuery (env : RagEnv) : Except PyError RagResult :=
  if ¬env.useHybrid ∧ env.hasOriginalRetriever then .ok (ragQueryFallback env)
  else
    match searchDocumentsStep env with
    | .ok docs =>
      match buildHybridSuccessResult env docs with
      | .ok r => .ok r
      | .error e => hybridExceptionHandler env e
    | .timeout =>
      match env.initFallback with
      | .ok _ => .ok (ragQueryFallback env)
      | .error e => .error e
    | .failure e => hybridExceptionHandler env e

/-- The structured error shape claimed for a double failure: an `error` entry,
the original query, the generic apology response, no retrieved documents, and
`metadata.error = true`. -/
def ErrorShaped (env : RagEnv) (r : RagResult) : Prop :=
  r.error.isSome = true ∧ r.query = env.query ∧ r.response = apologyMessage ∧
  r.retrievedDocuments = [] ∧ r.metadata.errorFlag = true

/-! ## Concrete states used by counterexamples and witnesses -/

/-- A filesystem state satisfying every condition of the specified freshness
check: all four files exist, the single data file is older than the manifest
timestamp, and the quick count (2) equals the manifest count. -/
def cacheFsExample : CacheFs :=
  { vectorIndexExists := true, vectorMetadataExists := true, bm25IndexExists := true,
    cacheInfoExists := true,
    manifest := some { timestamp := 100, documentCount := 2 },
    dataFiles := [{ name := "ncbi_papers_content.json", mtime := 50,
                    parsed := some (.papersDict [⟨true, true⟩, ⟨true, false⟩]) }] }

/-! ## C1: the cache freshness check -/

/-- Claim C1: the specification states that `_is_cache_valid` is true exactly
when all four cache files exist, no source file is newer than the manifest
timestamp, and the quick document count is within 100 of the manifest count.
The code instead always returns false: line 142 applies `len` to the integer
returned by `_count_documents_quickly`, raising `TypeError`, which the
surrounding handler turns into `False`.  First conjunct: the embedded check
returns false on every filesystem state.  Second conjunct: `cacheFsExample`
satisfies all the specified conditions, so the specified predicate is true
there while the code returns false. -/
theorem isCacheValid_always_false_against_spec :
    (∀ fs : CacheFs, isCacheValid fs = false) ∧ cacheValidClaim cacheFsExample = true := by
  constructor
  · intro fs
    unfold isCacheValid isCacheValidCore
    rcases fs with ⟨v, m, b, c, mani, files⟩
    rcases mani with _ | info <;> simp <;> split_ifs <;> rfl
  · decide

/-! ## C5: sparse add and the content guard -/

/-- The configuration invariance of one add step. -/
theorem bm25AddOne_cfg (s : BM25Search) (d : DocRecord) : (bm25AddOne s d).cfg = s.cfg := by
  unfold bm25AddOne
  split_ifs <;> rfl

/-- The membership predicate under which `add_documents` keeps a document:
non-empty content and a non-empty token stream of the stripped
title-plus-content text. -/
def keptByAdd (cfg : TokenizerConfig) (d : DocRecord) : Bool :=
  !(d.content == "") &&
    !(preprocessText cfg (pyStrip (d.title ++ " " ++ d.content))).isEmpty

/-- The document list after the add loop. -/
theorem bm25_foldl_documents : ∀ (docs : List DocRecord) (s : BM25Search),
    (docs.foldl bm25AddOne s).documents =
      s.documents ++ docs.filter (keptByAdd s.cfg)
  | [], s => by simp
  | d :: ds, s => by
    have hcfg := bm25AddOne_cfg s d
    have ih := bm25_foldl_documents ds (bm25AddOne s d)
    simp only [List.foldl_cons, ih, hcfg]
    unfold bm25AddOne keptByAdd
    by_cases h1 : d.content = ""
    · simp [h1]
    · by_cases h2 : (preprocessText s.cfg (pyStrip (d.title ++ " " ++ d.content))).isEmpty
      · simp [h1, h2]
      · simp [h1, h2]

/-- Claim C5 (amended): `add_documents` indexes exactly the documents whose
`content` is non-empty AND whose combined token stream is non-empty; the
content guard of lines 164-167 runs before tokenization, so a document with
empty content is excluded even when its title would tokenize. -/
theorem bm25_add_documents_kept_iff (s : BM25Search) (docs : List DocRecord) :
    (bm25AddDocuments s docs).documents =
      s.documents ++ docs.filter (keptByAdd s.cfg) := by
  unfold bm25AddDocuments
  by_cases h : docs.isEmpty
  · rcases docs with _ | ⟨d, ds⟩
    · simp
    · simp at h
  · simp only [h, Bool.false_eq_true, if_false]
    have := bm25_foldl_documents docs s
    split_ifs <;> simpa using this

/-- A sparse index state with stemming disabled and no stop-words. -/
def bm25StateExample : BM25Search :=
  { cfg := ⟨false, false, 2, [], fun t => t⟩, language := "indonesian",
    k1 := 6/5, b := 3/4, okapiBuilder := fun _ _ => [], bm25 := none,
    documents := [], tokenizedDocs := [], docIds := [] }

/-- A document with empty content whose title tokenizes to one token. -/
def titleOnlyDoc : DocRecord := ⟨"d1", "diabetes", ""⟩

/-- Claim C5 counterexample: the claim says a document is excluded if and only
if its combined token stream is empty, and in particular that a document with
empty content but a tokenizable title is indexed.  `titleOnlyDoc` has a
non-empty combined token stream, yet `add_documents` leaves the index empty. -/
theorem bm25_add_documents_drops_title_only_doc :
    (bm25AddDocuments bm25StateExample [titleOnlyDoc]).documents = [] ∧
    preprocessText bm25StateExample.cfg
      (pyStrip (titleOnlyDoc.title ++ " " ++ titleOnlyDoc.content)) = ["diabetes"] := by
  constructor
  · decide
  · decide

/-- Claim C5 witness: the amended statement evaluated on the concrete state and
the title-only document. -/
theorem bm25_add_documents_kept_iff_witness :
    (bm25AddDocuments bm25StateExample [titleOnlyDoc]).documents =
      bm25StateExample.documents ++
        [titleOnlyDoc].filter (keptByAdd bm25StateExample.cfg) :=
  bm25_add_documents_kept_iff bm25StateExample [titleOnlyDoc]

/-! ## C6: the token stream and the filter/stem order -/

/-- Tokens produced by the splitter are non-empty and consist of non-whitespace
characters drawn from the input. -/
theorem splitWsAux_chars : ∀ (cs cur : List Char),
    (∀ c ∈ cur, c.isWhitespace = false) →
    ∀ t ∈ splitWsAux cs cur, t.data ≠ [] ∧
      ∀ c ∈ t.data, (c ∈ cs ∨ c ∈ cur) ∧ c.isWhitespace = false
  | [], cur => by
    intro hcur t ht
    unfold splitWsAux at ht
    split_ifs at ht with h
    · simp at ht
    · simp only [List.mem_singleton] at ht
      subst ht
      refine ⟨by simpa [List.isEmpty_iff] using h, ?_⟩
      intro c hc
      simp only [String.data] at hc
      rw [List.mem_reverse] at hc
      exact ⟨Or.inr hc, hcur c hc⟩
  | a :: cs, cur => by
    intro hcur t ht
    unfold splitWsAux at ht
    by_cases hw : a.isWhitespace
    · simp only [hw, if_true] at ht
      split_ifs at ht with hempty
      · have := splitWsAux_chars cs [] (by simp) t ht
        exact ⟨this.1, fun c hc =>
          ⟨Or.inl (List.mem_cons_of_mem _ ((this.2 c hc).1.resolve_right (by simp))),
           (this.2 c hc).2⟩⟩
      · rcases List.mem_cons.mp ht with rfl | hrest
        · refine ⟨by simpa [List.isEmpty_iff] using hempty, ?_⟩
          intro c hc
          simp only [String.data] at hc
          rw [List.mem_reverse] at hc
          exact ⟨Or.inr hc, hcur c hc⟩
        · have := splitWsAux_chars cs [] (by simp) t hrest
          exact ⟨this.1, fun c hc => ⟨Or.inl (List.mem_cons_of_mem _ ((this.2 c hc).1.resolve_right (by simp))), (this.2 c hc).2⟩⟩
    · simp only [hw, if_false] at ht
      have := splitWsAux_chars cs (a :: cur)
        (by intro c hc; rcases List.mem_cons.mp hc with rfl | hmem
            · simpa using hw
            · exact hcur c hmem) t ht
      refine ⟨this.1, fun c hc => ?_⟩
      rcases (this.2 c hc).1 with h1 | h2
      · exact ⟨Or.inl (List.mem_cons_of_mem _ h1), (this.2 c hc).2⟩
      · rcases List.mem_cons.mp h2 with rfl | hmem
        · exact ⟨Or.inl (List.mem_cons_self _ _), (this.2 c hc).2⟩
        · exact ⟨Or.inr hmem, (this.2 c hc).2⟩

/-- Non-whitespace characters of the cleaned text are lowercase
alphanumerics. -/
theorem pyLowerClean_mem (text : String) (c : Char) (hc : c ∈ pyLowerClean text)
    (hw : c.isWhitespace = false) : isLowerAlnum c = true := by
  unfold pyLowerClean at hc
  rcases List.mem_map.mp hc with ⟨c0, _, hmap⟩
  by_cases h1 : isLowerAlnum c0.toLower
  · simp only [h1, if_true] at hmap
    subst hmap
    exact h1
  · simp only [h1, if_false] at hmap
    by_cases h2 : c0.toLower.isWhitespace
    · simp only [h2, if_true] at hmap
      subst hmap
      simp [h2] at hw
    · simp only [h2, if_false] at hmap
      subst hmap
      simp at hw

/-- Claim C6 (amended): every output token of `preprocess_text` is the image
under the configured stemmer (the identity when stemming is disabled) of a
pre-stem token that is a non-empty lowercase alphanumeric string of length at
least `min_word_length` and is not a stop-word when stop-word removal is
enabled.  The length and stop-word filters run before stemming, so they
constrain the pre-stem token, not the emitted one. -/
theorem preprocess_filters_pre_stem (cfg : TokenizerConfig) (text : String) :
    ∀ tok ∈ preprocessText cfg text, ∃ t : String,
      t.data ≠ [] ∧ (∀ c ∈ t.data, isLowerAlnum c = true) ∧
      cfg.minWordLength ≤ t.length ∧
      (cfg.removeStopwords = true → t ∉ cfg.stopwords) ∧
      tok = (if cfg.useStemming then cfg.stem t else t) := by
  intro tok htok
  unfold preprocessText at htok
  by_cases hempty : text = ""
  · simp [hempty] at htok
  · rw [if_neg hempty] at htok
    rcases List.mem_filterMap.mp htok with ⟨token, hmem, hsome⟩
    by_cases hlen : token.length < cfg.minWordLength
    · rw [if_pos hlen] at hsome
      exact absurd hsome (by simp)
    · rw [if_neg hlen] at hsome
      by_cases hstop : (cfg.removeStopwords && cfg.stopwords.contains token) = true
      · rw [if_pos hstop] at hsome
        exact absurd hsome (by simp)
      · rw [if_neg hstop] at hsome
        refine ⟨token, ?_, ?_, ?_, ?_, (Option.some.inj hsome).symm⟩
        · exact (splitWsAux_chars (pyLowerClean text) [] (by simp) token hmem).1
        · intro c hc
          have h := (splitWsAux_chars (pyLowerClean text) [] (by simp) token hmem).2 c hc
          exact pyLowerClean_mem text c (h.1.resolve_right (by simp)) h.2
        · omega
        · intro hrs
          intro habs
          apply hstop
          simp only [hrs, Bool.true_and]
          exact List.elem_eq_true_of_mem habs

/-- A stemmer agreeing with the NLTK Porter stemmer on the word "flies"
(Porter maps "flies" to "fli"). -/
def stemmerExample : String → String := fun s => if s = "flies" then "fli" else s

/-- A tokenizer configuration with `min_word_length = 4` and stemming
enabled. -/
def tokenizerCfgExample : TokenizerConfig := ⟨true, false, 4, [], stemmerExample⟩

/-- Claim C6 counterexample: the claim requires every output token, measured
post-stem, to have length at least `min_word_length`; the input "flies"
(length 5) passes the pre-stem length filter and stems to "fli" (length 3),
so the emitted token violates the post-stem bound. -/
theorem preprocess_emits_short_post_stem_token :
    "fli" ∈ preprocessText tokenizerCfgExample "flies" ∧
    "fli".length < tokenizerCfgExample.minWordLength := by
  constructor
  · decide
  · decide

/-- A tokenizer configuration for the witness: stemming via the identity. -/
def tokenizerCfgWitness : TokenizerConfig := ⟨true, true, 2, ["dan"], fun t => t⟩

/-- Claim C6 witness: the amended statement applied to the token "sakit" of a
concrete input. -/
theorem preprocess_filters_pre_stem_witness :
    ∃ t : String, t.data ≠ [] ∧ (∀ c ∈ t.data, isLowerAlnum c = true) ∧
      tokenizerCfgWitness.minWordLength ≤ t.length ∧
      (tokenizerCfgWitness.removeStopwords = true → t ∉ tokenizerCfgWitness.stopwords) ∧
      "sakit" = (if tokenizerCfgWitness.useStemming then tokenizerCfgWitness.stem t else t) :=
  preprocess_filters_pre_stem tokenizerCfgWitness "Sakit dan kepala!" "sakit" (by decide)

/-! ## C7: save/load round trip -/

/-- Claim C7: for both indexes, loading a saved snapshot onto an instance whose
non-persisted components (the query encoder for the dense index; the stop-word
set and the stemmer for the sparse one) match the saving instance yields
identical search output for every query and every result count. -/
theorem save_load_roundtrip (db0 db : FaissVectorDB) (s0 s : BM25Search)
    (hEmbed : db0.embedQuery = db.embedQuery)
    (hStop : s0.cfg.stopwords = s.cfg.stopwords)
    (hStem : s0.cfg.stem = s.cfg.stem) :
    (∀ (q : String) (k : ℕ),
        faissSearch (faissLoadIndex db0 (faissSaveIndex db)) q k = faissSearch db q k) ∧
    (∀ (q : String) (k : ℕ),
        bm25Search (bm25LoadIndex s0 (bm25SaveIndex s)) q k = bm25Search s q k) := by
  obtain ⟨d0docs, d0ids, d0idx, d0dim, d0ty, d0nl, d0tr, d0em, d0eq⟩ := db0
  obtain ⟨ddocs, dids, didx, ddim, dty, dnl, dtr, dem, deq⟩ := db
  obtain ⟨⟨u0, r0, m0, sw0, st0⟩, l0, ka0, kb0, ob0, bm0, sd0, st0d, si0⟩ := s0
  obtain ⟨⟨u, r, m, sw, st⟩, l, ka, kb, ob, bm, sd, std, si⟩ := s
  simp only at hEmbed hStop hStem
  subst hEmbed hStop hStem
  exact ⟨fun q k => rfl, fun q k => rfl⟩

/-- A concrete dense index state. -/
def faissDbWitness : FaissVectorDB :=
  { documents := [⟨"d1", "Hipertensi", "tekanan darah tinggi"⟩], docIds := ["d1"],
    index := some [[1]], dimension := 1, indexType := "Flat", nlist := 100,
    isTrained := true, embeddingModel := "sentence-transformers",
    embedQuery := fun _ => [1] }

/-- A concrete sparse index state. -/
def bm25Witness : BM25Search :=
  { cfg := ⟨true, true, 2, ["dan"], fun t => t⟩, language := "indonesian",
    k1 := 6/5, b := 3/4, okapiBuilder := fun _ _ => [1],
    bm25 := some fun _ => [1],
    documents := [⟨"d1", "Hipertensi", "tekanan darah tinggi"⟩],
    tokenizedDocs := [["hipertensi", "tekanan", "darah", "tinggi"]], docIds := ["d1"] }

/-- Claim C7 witness: the round trip evaluated on concrete instances (the
saving instance itself receives the load) at a concrete query. -/
theorem save_load_roundtrip_witness :
    faissSearch (faissLoadIndex faissDbWitness (faissSaveIndex faissDbWitness))
        "tekanan darah" 3 =
      faissSearch faissDbWitness "tekanan darah" 3 ∧
    bm25Search (bm25LoadIndex bm25Witness (bm25SaveIndex bm25Witness))
        "tekanan darah" 3 =
      bm25Search bm25Witness "tekanan darah" 3 :=
  ⟨(save_load_roundtrip faissDbWitness faissDbWitness bm25Witness bm25Witness
      rfl rfl rfl).1 "tekanan darah" 3,
   (save_load_roundtrip faissDbWitness faissDbWitness bm25Witness bm25Witness
      rfl rfl rfl).2 "tekanan darah" 3⟩

/-! ## C8: parallel and sequential hybrid search agree -/

/-- Claim C8: with identical engines and query, `HybridSearchEngine.search`
returns the same ranked list with parallel execution enabled as with it
disabled, for every leg completion order: the `as_completed` loop binds each
result by future identity, so fusion sees the same pair of leg result sets
either way. -/
theorem hybrid_parallel_eq_sequential (h : HybridSearchEngine) (q : String)
    (topK : Option ℕ) (order1 order2 : Bool) :
    hybridSearch (setParallel h true) q topK order1 =
      hybridSearch (setParallel h false) q topK order2 := by
  obtain ⟨⟨vw, kw, up, vk, kk, fk, rm⟩, vdb, bm⟩ := h
  cases order1 <;> cases order2 <;> rfl

/-! ## C9 and C10: rag_query error containment -/

/-- The environment of the C9 counterexample: the hybrid search times out, and
re-initializing the original retriever raises. -/
def ragEnvTimeoutCrash : RagEnv :=
  { query := "q", useHybrid := true, hasOriginalRetriever := false,
    hybridSearchOutcome := .timeout, hybridResponse := "",
    originalDocsCount := 0, initFallback := .error .valueError,
    fallbackSearch := .ok [], fallbackResponse := "" }

/-- Claim C9 counterexample: the claim says `rag_query` never propagates an
exception to its caller; in the `except TimeoutException` branch the
re-initialization of the fallback retriever runs outside any `try`, so when it
raises, `rag_query` raises. -/
theorem ragQuery_propagates_timeout_reinit_failure :
    ragQuery ragEnvTimeoutCrash = .error .valueError := rfl

/-- Claim C9 (amended): unless a timeout is followed by a failing fallback
re-initialization, `rag_query` returns a result rather than raising; and
whenever the hybrid path was taken and the fallback attempt failed (failing
re-initialization or failing fallback search), the returned result has the
structured error shape: an `error` entry, the original query, the generic
apology response, an empty document list, and `metadata.error = true`. -/
theorem ragQuery_contained_unless_timeout_reinit_fails (env : RagEnv)
    (hSafe : env.useHybrid = true → env.hybridSearchOutcome = .timeout →
      ∀ e, env.initFallback ≠ .error e) :
    ∃ r, ragQuery env = .ok r ∧
      ((env.useHybrid = true ∨ env.hasOriginalRetriever = false) →
        ((∃ e, env.initFallback = .error e) ∨ (∃ e, env.fallbackSearch = .error e)) →
        ErrorShaped env r) := by
  obtain ⟨q, uh, ho, so, hr, oc, initF, fbS, fbR⟩ := env
  simp only at hSafe ⊢
  rcases initF with ie | u <;> rcases fbS with fe | fdocs <;>
    cases uh <;> cases ho <;> rcases so with docs | _ | e <;>
    first
    | exact absurd rfl (hSafe rfl rfl _)
    | (refine ⟨_, rfl, fun h1 h2 => ?_⟩
       first
       | ((rcases h1 with h1 | h1 <;> simp at h1); done)
       | ((rcases h2 with ⟨e2, h2⟩ | ⟨e2, h2⟩ <;> simp at h2); done)
       | simp [ErrorShaped, ragQueryFallback, hybridExceptionHandler, apologyMessage])

/-- Claim C9 witness: the amended statement on a concrete environment where the
hybrid path raises a generic exception and the fallback re-initialization also
raises. -/
theorem ragQuery_contained_witness :
    ∃ r, ragQuery
        { query := "q", useHybrid := true, hasOriginalRetriever := false,
          hybridSearchOutcome := .failure .valueError, hybridResponse := "",
          originalDocsCount := 0, initFallback := .error .valueError,
          fallbackSearch := .ok [], fallbackResponse := "" } = .ok r ∧
      ((true = true ∨ false = false) →
        ((∃ e, (Except.error PyError.valueError : Except PyError Unit) = .error e) ∨
          (∃ e, (Except.ok [] : Except PyError (List RetrievedDoc)) = .error e)) →
        ErrorShaped
          { query := "q", useHybrid := true, hasOriginalRetriever := false,
            hybridSearchOutcome := .failure .valueError, hybridResponse := "",
            originalDocsCount := 0, initFallback := .error .valueError,
            fallbackSearch := .ok [], fallbackResponse := "" } r) :=
  ragQuery_contained_unless_timeout_reinit_fails _ (by intro _ h; simp at h)

/-- Claim C10: on the hybrid path the construction of the success result raises
`AttributeError` — the metadata entry `total_documents_available` calls
`.get("total_documents", 0)` on the `FaissVectorDB` object, which has no such
method — so `rag_query` never returns a result whose `metadata.search_engine`
is "hybrid": every returned result comes from the fallback retriever or is a
structured error shape. -/
theorem ragQuery_never_returns_hybrid_engine :
    (∀ (env : RagEnv) (docs : List RetrievedDoc), env.useHybrid = true →
      buildHybridSuccessResult env docs = .error .attributeError) ∧
    (∀ (env : RagEnv) (r : RagResult), ragQuery env = .ok r →
      r.metadata.searchEngine ≠ some "hybrid") := by
  have hfb : ∀ env : RagEnv, (ragQueryFallback env).metadata.searchEngine ≠ some "hybrid" := by
    intro env
    unfold ragQueryFallback
    rcases env.fallbackSearch with e | docs <;> simp
  have hhandler : ∀ (env : RagEnv) (e : PyError) (r : RagResult),
      hybridExceptionHandler env e = .ok r → r.metadata.searchEngine ≠ some "hybrid" := by
    intro env e r h
    unfold hybridExceptionHandler at h
    rcases hinit : env.initFallback with ie | u <;> rw [hinit] at h <;>
      injection h with h <;> subst h
    · simp
    · exact hfb env
  constructor
  · intro env docs h
    simp [buildHybridSuccessResult, h, faissVectorDbGetTotalDocuments]
  · intro env r hr
    unfold ragQuery at hr
    split_ifs at hr with hearly
    · injection hr with h
      subst h
      exact hfb env
    · revert hr
      cases hso : searchDocumentsStep env with
      | ok docs =>
        intro hr
        dsimp only at hr
        by_cases huh : env.useHybrid = true
        · rw [show buildHybridSuccessResult env docs = .error .attributeError from by
            simp [buildHybridSuccessResult, huh, faissVectorDbGetTotalDocuments]] at hr
          exact hhandler env _ r hr
        · have hbuild : buildHybridSuccessResult env docs =
              .ok { error := none, query := env.query, response := env.hybridResponse,
                    retrievedDocuments := docs,
                    metadata :=
                      { numRetrievedDocs := docs.length, searchEngine := some "original",
                        errorFlag := false, hybridFailed := false, fallbackFailed := false,
                        fallbackUsed := false,
                        totalDocumentsAvailable := some env.originalDocsCount } } := by
            simp [buildHybridSuccessResult, huh]
          rw [hbuild] at hr
          injection hr with h
          subst h
          simp
      | timeout =>
        intro hr
        dsimp only at hr
        rcases hinit : env.initFallback with ie | u <;> rw [hinit] at hr
        · exact absurd hr (by simp)
        · injection hr with h
          subst h
          exact hfb env
      | failure e =>
        intro hr
        dsimp only at hr
        exact hhandler env e r hr

/-- The environment of the C10 witness: hybrid enabled, hybrid search raises,
fallback succeeds. -/
def ragEnvHybridWitness : RagEnv :=
  { query := "q", useHybrid := true, hasOriginalRetriever := false,
    hybridSearchOutcome := .failure .valueError, hybridResponse := "",
    originalDocsCount := 0, initFallback := .ok (),
    fallbackSearch := .ok [], fallbackResponse := "jawaban" }

/-- Claim C10 witness: a hybrid-mode call that returns a result, and that
result is not labelled "hybrid". -/
theorem ragQuery_never_returns_hybrid_engine_witness :
    ragQuery ragEnvHybridWitness = .ok (ragQueryFallback ragEnvHybridWitness) ∧
    (ragQueryFallback ragEnvHybridWitness).metadata.searchEngine ≠ some "hybrid" :=
  ⟨rfl, ragQuery_never_returns_hybrid_engine.2 ragEnvHybridWitness
    (ragQueryFallback ragEnvHybridWitness) rfl⟩

/-! ## Sorted-index helper lemmas for both search functions -/

/-- The descending argsort relation is total. -/
theorem argsortDescKey_total (a b : ℕ × ℚ) :
    argsortDescKey a ≤ argsortDescKey b ∨ argsortDescKey b ≤ argsortDescKey a :=
  le_total _ _

/-- Every pair of a list lifts to its enumeration. -/
theorem pairwise_enumFrom {α : Type} {R : α → α → Prop} :
    ∀ (l : List α) (n : ℕ), l.Pairwise R →
      (l.enumFrom n).Pairwise fun a b => R a.2 b.2
  | [], _, _ => by simp
  | a :: l, n, h => by
    rw [List.enumFrom_cons]
    rcases List.pairwise_cons.mp h with ⟨hhead, htail⟩
    refine List.pairwise_cons.mpr ⟨?_, pairwise_enumFrom l (n + 1) htail⟩
    rintro ⟨i, x⟩ hp
    rcases List.mem_enumFrom hp with ⟨-, -, hx⟩
    exact hhead _ (hx ▸ List.getElem_mem _)

/-- Every pair of a list lifts to its `enum`. -/
theorem pairwise_enum {α : Type} {R : α → α → Prop} (l : List α) (h : l.Pairwise R) :
    l.enum.Pairwise fun a b => R a.2 b.2 :=
  List.enum_eq_enumFrom ▸ pairwise_enumFrom l 0 h

/-- Members of the enumeration read back through `getD`. -/
theorem enum_getD (l : List ℚ) (p : ℕ × ℚ) (hp : p ∈ l.enum) :
    l.getD p.1 0 = p.2 ∧ p.1 < l.length := by
  have h : l[p.1]? = some p.2 := List.mk_mem_enum_iff_getElem?.mp (by simpa using hp)
  refine ⟨by simp [List.getD_eq_getElem?_getD, h], ?_⟩
  rcases List.getElem?_eq_some_iff.mp h with ⟨hlt, -⟩
  exact hlt

/-- Every index produced by the descending argsort is in range. -/
theorem npArgsortDesc_mem_lt (scores : List ℚ) :
    ∀ i ∈ npArgsortDesc scores, i < scores.length := by
  intro i hi
  unfold npArgsortDesc at hi
  rcases List.mem_map.mp hi with ⟨p, hp, rfl⟩
  rw [List.mem_insertionSort] at hp
  exact (enum_getD scores p hp).2

/-- Scores read along the descending argsort are non-increasing. -/
theorem npArgsortDesc_scores_sorted (scores : List ℚ) :
    (npArgsortDesc scores).Pairwise fun i j => scores.getD j 0 ≤ scores.getD i 0 := by
  unfold npArgsortDesc
  rw [List.pairwise_map]
  haveI : IsTotal (ℕ × ℚ) (fun a b => argsortDescKey a ≤ argsortDescKey b) :=
    ⟨fun a b => le_total _ _⟩
  haveI : IsTrans (ℕ × ℚ) (fun a b => argsortDescKey a ≤ argsortDescKey b) :=
    ⟨fun _ _ _ hab hbc => le_trans hab hbc⟩
  have hs := List.sorted_insertionSort
    (fun a b => argsortDescKey a ≤ argsortDescKey b) scores.enum
  refine hs.imp_of_mem ?_
  intro p q hp hq hr
  rw [List.mem_insertionSort] at hp hq
  rcases enum_getD scores p hp with ⟨hdp, -⟩
  rcases enum_getD scores q hq with ⟨hdq, -⟩
  rw [hdp, hdq]
  unfold argsortDescKey at hr
  rcases (Prod.Lex.le_iff _ _).mp hr with hlt | ⟨heq, -⟩
  · exact le_of_lt hlt
  · exact le_of_eq (OrderDual.toDual.injective heq).symm

/-- Positivity of every hit kept by the sparse search filter. -/
theorem bm25Search_pos (s : BM25Search) (q : String) (k : ℕ) :
    ∀ h ∈ bm25Search s q k, 0 < h.score := by
  intro h hh
  unfold bm25Search at hh
  rcases hbm : s.bm25 with _ | scorer <;> rw [hbm] at hh <;> dsimp only at hh
  · simp at hh
  · by_cases hdocs : s.documents.isEmpty
    · simp [hdocs] at hh
    · rw [if_neg (by simpa using hdocs)] at hh
      by_cases hq : (preprocessText s.cfg q).isEmpty
      · rw [if_pos hq] at hh
        simp at hh
      · rw [if_neg hq] at hh
        rcases List.mem_filterMap.mp hh with ⟨p, -, hsome⟩
        by_cases hpos : (scorer (preprocessText s.cfg q)).getD p.2 0 ≤ 0
        · rw [if_pos hpos] at hsome
          exact absurd hsome (by simp)
        · rw [if_neg hpos] at hsome
          have := Option.some.inj hsome
          rw [← this]
          exact lt_of_not_le hpos

/-- The sparse search returns at most `k` hits. -/
theorem bm25Search_length_le (s : BM25Search) (q : String) (k : ℕ) :
    (bm25Search s q k).length ≤ k := by
  unfold bm25Search
  rcases s.bm25 with _ | scorer <;> dsimp only
  · simp
  · by_cases hdocs : s.documents.isEmpty
    · simp [hdocs]
    · rw [if_neg (by simpa using hdocs)]
      by_cases hq : (preprocessText s.cfg q).isEmpty
      · simp [hq]
      · rw [if_neg hq]
        refine le_trans (List.length_filterMap_le _ _) ?_
        rw [List.enum_length, List.length_take]
        omega

/-- The sparse search output is ordered by non-increasing score. -/
theorem bm25Search_sorted (s : BM25Search) (q : String) (k : ℕ) :
    ((bm25Search s q k).map BM25Hit.score).Pairwise fun a b => b ≤ a := by
  rw [List.pairwise_map]
  unfold bm25Search
  rcases s.bm25 with _ | scorer <;> dsimp only
  · simp
  · by_cases hdocs : s.documents.isEmpty
    · simp [hdocs]
    · rw [if_neg (by simpa using hdocs)]
      by_cases hq : (preprocessText s.cfg q).isEmpty
      · simp [hq]
      · rw [if_neg hq]
        rw [List.pairwise_filterMap]
        have hbase := (npArgsortDesc_scores_sorted (scorer (preprocessText s.cfg q))).take
          (n := min k s.documents.length)
        have henum := pairwise_enum _ hbase
        refine henum.imp ?_
        rintro ⟨i, a⟩ ⟨j, b⟩ hab x hx y hy
        dsimp only at hab hx hy
        by_cases ha : (scorer (preprocessText s.cfg q)).getD a 0 ≤ 0
        · rw [if_pos ha] at hx
          simp at hx
        · rw [if_neg ha] at hx
          by_cases hb : (scorer (preprocessText s.cfg q)).getD b 0 ≤ 0
          · rw [if_pos hb] at hy
            simp at hy
          · rw [if_neg hb] at hy
            rw [← Option.some.inj hx, ← Option.some.inj hy]
            exact hab

/-- An empty preprocessed query yields the empty sparse result. -/
theorem bm25Search_empty_query (s : BM25Search) (q : String) (k : ℕ)
    (h : preprocessText s.cfg q = []) : bm25Search s q k = [] := by
  unfold bm25Search
  rcases s.bm25 with _ | scorer <;> dsimp only
  by_cases hdocs : s.documents.isEmpty
  · simp [hdocs]
  · simp [hdocs, h]

/-! ## C2: the sparse search contract -/

/-- Claim C2: for every sparse index state, query and `k`, the search returns
at most `k` hits, every hit has a strictly positive BM25 score, the hits are
ordered by non-increasing score, and a query whose token stream is empty after
preprocessing yields the empty result. -/
theorem bm25_search_contract (s : BM25Search) (q : String) (k : ℕ) :
    (bm25Search s q k).length ≤ k ∧
    (∀ h ∈ bm25Search s q k, 0 < h.score) ∧
    ((bm25Search s q k).map BM25Hit.score).Pairwise (fun a b => b ≤ a) ∧
    (preprocessText s.cfg q = [] → bm25Search s q k = []) :=
  ⟨bm25Search_length_le s q k, bm25Search_pos s q k, bm25Search_sorted s q k,
   bm25Search_empty_query s q k⟩

/-- Claim C2 witness: the contract evaluated on a concrete index state. -/
theorem bm25_search_contract_witness :
    (bm25Search bm25Witness "tekanan" 3).length ≤ 3 ∧
    (∀ h ∈ bm25Search bm25Witness "tekanan" 3, 0 < h.score) ∧
    ((bm25Search bm25Witness "tekanan" 3).map BM25Hit.score).Pairwise (fun a b => b ≤ a) ∧
    (preprocessText bm25Witness.cfg "tekanan" = [] → bm25Search bm25Witness "tekanan" 3 = []) :=
  bm25_search_contract bm25Witness "tekanan" 3

/-! ## C3: dense similarity score bounds -/

/-- A sum of squares is non-negative. -/
theorem sumSq_nonneg : ∀ v : List ℚ, 0 ≤ sumSq v
  | [] => le_refl 0
  | a :: as => by
    unfold sumSq
    have := sumSq_nonneg as
    nlinarith [mul_self_nonneg a]

/-- Elementary Cauchy-Schwarz bound: the inner product is bounded by the mean
of the two sums of squares. -/
theorem abs_dotQ_le : ∀ u v : List ℚ, |dotQ u v| ≤ (sumSq u + sumSq v) / 2
  | [], v => by
    unfold dotQ
    have := sumSq_nonneg v
    simp only [abs_zero, sumSq]
    linarith
  | a :: as, [] => by
    unfold dotQ
    have h1 := sumSq_nonneg (a :: as)
    simp only [abs_zero, sumSq]
    have := sumSq_nonneg as
    nlinarith [mul_self_nonneg a]
  | a :: as, b :: bs => by
    unfold dotQ sumSq
    have ih := abs_dotQ_le as bs
    have h1 : |a * b + dotQ as bs| ≤ |a * b| + |dotQ as bs| := abs_add _ _
    have h2 : |a * b| ≤ (a * a + b * b) / 2 := by
      rw [abs_mul]
      nlinarith [sq_nonneg (|a| - |b|), abs_nonneg a, abs_nonneg b,
        sq_abs a, sq_abs b]
    calc |a * b + dotQ as bs| ≤ |a * b| + |dotQ as bs| := h1
      _ ≤ (a * a + b * b) / 2 + (sumSq as + sumSq bs) / 2 := by linarith
      _ = (a * a + sumSq as + (b * b + sumSq bs)) / 2 := by ring

/-- Scores read from the dense score column are bounded by 1 in absolute value
when the query embedding and all stored vectors are unit vectors. -/
theorem dense_getD_score_bounded (vecs : List (List ℚ)) (qe : List ℚ) (i : ℕ)
    (hunit : ∀ v ∈ vecs, sumSq v = 1) (hq : sumSq qe = 1) :
    -1 ≤ (vecs.map (dotQ qe)).getD i 0 ∧ (vecs.map (dotQ qe)).getD i 0 ≤ 1 := by
  by_cases hi : i < vecs.length
  · have hget : (vecs.map (dotQ qe)).getD i 0 = dotQ qe vecs[i] := by
      rw [List.getD_eq_getElem?_getD, List.getElem?_map,
        List.getElem?_eq_getElem hi]
      rfl
    rw [hget]
    have habs := abs_dotQ_le qe vecs[i]
    rw [hq, hunit vecs[i] (List.getElem_mem hi)] at habs
    have : |dotQ qe vecs[i]| ≤ 1 := by linarith
    exact abs_le.mp this
  · have hget : (vecs.map (dotQ qe)).getD i 0 = 0 := by
      rw [List.getD_eq_getElem?_getD, List.getElem?_eq_none]
      · rfl
      · simpa using le_of_not_lt hi
    rw [hget]
    norm_num

/-- Claim C3 (amended): when the stored vectors and the query embedding are
unit vectors, every dense hit carries a similarity score `s` with
`-1 ≤ s ≤ 1` — not `0 < s`: the dense search keeps every returned index
without any positivity filter — and every sparse hit carries a score `≥ 0`
(indeed `> 0`). -/
theorem dense_scores_bounded (db : FaissVectorDB) (q : String) (k : ℕ)
    (hunit : ∀ v ∈ db.index.getD [], sumSq v = 1)
    (hq : sumSq (db.embedQuery q) = 1) :
    (∀ h ∈ faissSearch db q k, -1 ≤ h.score ∧ h.score ≤ 1) ∧
    (∀ (s : BM25Search) (q2 : String) (k2 : ℕ), ∀ h ∈ bm25Search s q2 k2, 0 ≤ h.score) := by
  constructor
  · intro h hh
    unfold faissSearch at hh
    rcases hidx : db.index with _ | vecs <;> rw [hidx] at hh <;> dsimp only at hh
    · simp at hh
    · rw [hidx] at hunit
      by_cases hdocs : db.documents.isEmpty
      · simp [hdocs] at hh
      · rw [if_neg (by simpa using hdocs)] at hh
        by_cases hz : (db.embedQuery q).all (fun x => decide (x = 0))
        · rw [if_pos hz] at hh
          simp at hh
        · rw [if_neg hz] at hh
          rcases List.mem_map.mp hh with ⟨p, -, rfl⟩
          exact dense_getD_score_bounded vecs (db.embedQuery q) p.2 hunit hq
  · intro s q2 k2 h hh
    exact le_of_lt (bm25Search_pos s q2 k2 h hh)

/-- A dense index holding two opposite unit vectors; the encoder maps every
query to the unit vector `[1]`. -/
def faissDbExample : FaissVectorDB :=
  { documents := [⟨"d1", "t1", "c1"⟩, ⟨"d2", "t2", "c2"⟩], docIds := ["d1", "d2"],
    index := some [[1], [-1]], dimension := 1, indexType := "Flat", nlist := 100,
    isTrained := true, embeddingModel := "sentence-transformers",
    embedQuery := fun _ => [1] }

/-- Claim C3 counterexample: the claim states every dense hit has score
`0 < s ≤ 1`; on `faissDbExample` the search returns the document stored at the
opposite unit vector with score `-1`, which is not positive. -/
theorem dense_search_returns_nonpositive_score :
    (faissSearch faissDbExample "penyakit" 2).map FaissHit.score = [1, -1] ∧
    ¬(0 < (-1 : ℚ)) := by
  constructor
  · have hdot1 : dotQ [1] [1] = 1 := by norm_num [dotQ]
    have hdot2 : dotQ [1] [-1] = -1 := by norm_num [dotQ]
    have hscores : ([[1], [-1]] : List (List ℚ)).map (dotQ [1]) = [1, -1] := by
      simp [hdot1, hdot2]
    unfold faissSearch faissDbExample
    dsimp only
    rw [hscores]
    norm_num [npArgsortDesc, argsortDescKey, List.insertionSort, List.orderedInsert,
      Prod.Lex.le_iff]
    split_ifs with hcond
    · decide
    · exact absurd (Or.inl (by decide)) hcond
  · norm_num

/-- Claim C3 witness: the amended statement on a concrete one-vector index with
a unit query embedding. -/
theorem dense_scores_bounded_witness :
    (∀ h ∈ faissSearch faissDbWitness "penyakit" 2, -1 ≤ h.score ∧ h.score ≤ 1) ∧
    (∀ (s : BM25Search) (q2 : String) (k2 : ℕ),
      ∀ h ∈ bm25Search s q2 k2, 0 ≤ h.score) :=
  dense_scores_bounded faissDbWitness "penyakit" 2
    (by intro v hv
        simp only [faissDbWitness, Option.getD] at hv
        rw [List.mem_singleton] at hv
        subst hv
        norm_num [sumSq])
    (by norm_num [faissDbWitness, sumSq])

/-! ## C4: the re-ranker sorts by the specified key

The union list built by `_rerank_results` carries a structural invariant: along
dict insertion order, entries with a dense rank come first in strictly
increasing dense-rank order, followed by keyword-only entries in strictly
increasing keyword-rank order.  `strongStrict` captures that invariant; it is
exactly what makes the stable sort of the code agree with the rank/doc-id
tie-break stated by the specification. -/

/-- The strict precedence of two union entries in insertion order. -/
def strongStrict (e f : FusionEntry) : Prop :=
  rankKey e.vectorRank < rankKey f.vectorRank ∨
    (e.vectorRank = none ∧ f.vectorRank = none ∧
      rankKey e.keywordRank < rankKey f.keywordRank)

/-- `strongStrict` is asymmetric. -/
theorem strongStrict_asymm {e f : FusionEntry} (h : strongStrict e f) :
    ¬strongStrict f e := by
  rcases h with h | ⟨he, hf, hk⟩
  · rintro (h2 | ⟨hfn, hen, -⟩)
    · exact absurd h2 (not_lt_of_lt h)
    · rw [hen, hfn] at h
      exact lt_irrefl _ h
  · rintro (h2 | ⟨-, -, hk2⟩)
    · rw [he, hf] at h2
      exact lt_irrefl _ h2
    · exact absurd hk2 (not_lt_of_lt hk)

/-- The vector pass over a fresh accumulator appends one entry per vector
result. -/
theorem foldl_addVector_eq : ∀ (vr : List LegHit) (acc : List FusionEntry),
    (∀ e ∈ acc, ∀ r ∈ vr, e.docId ≠ r.docId) →
    (vr.map LegHit.docId).Nodup →
    vr.foldl addVectorResult acc = acc ++ vr.map mkVectorEntry
  | [], acc, _, _ => by simp
  | r :: vr, acc, hfresh, hnodup => by
    have hnd := List.nodup_cons.mp (show (r.docId :: vr.map LegHit.docId).Nodup by
      simpa using hnodup)
    have hany : acc.any (fun e => e.docId == r.docId) = false := by
      rw [List.any_eq_false]
      intro e he
      simpa using hfresh e he r (List.mem_cons_self _ _)
    simp only [List.foldl_cons, addVectorResult, hany, Bool.false_eq_true, if_false]
    rw [foldl_addVector_eq vr (acc ++ [mkVectorEntry r]) ?_ hnd.2]
    · simp
    · intro e he r2 hr2
      rcases List.mem_append.mp he with he | he
      · exact hfresh e he r2 (List.mem_cons_of_mem _ hr2)
      · rw [List.mem_singleton] at he
        subst he
        intro hEq
        apply hnd.1
        rw [show r.docId = r2.docId from hEq]
        exact List.mem_map_of_mem LegHit.docId hr2

/-- Keyword-only entries of the accumulator carry a keyword rank below the
bound. -/
def NoneKwBound (acc : List FusionEntry) (bound : ℕ) : Prop :=
  ∀ e ∈ acc, e.vectorRank = none → ∃ rk, e.keywordRank = some rk ∧ rk < bound

/-- The keyword pass preserves the insertion-order invariant. -/
theorem foldl_addKeyword_pairwise :
    ∀ (kr : List LegHit) (acc : List FusionEntry) (bound : ℕ),
      acc.Pairwise strongStrict →
      NoneKwBound acc bound →
      (∀ e ∈ acc, e.vectorRank = none → ∀ r ∈ kr, e.docId ≠ r.docId) →
      (kr.map LegHit.docId).Nodup →
      (kr.map LegHit.rank).Pairwise (· < ·) →
      (∀ r ∈ kr, bound ≤ r.rank) →
      (kr.foldl addKeywordResult acc).Pairwise strongStrict
  | [], _, _, hpw, _, _, _, _, _ => hpw
  | r :: kr, acc, bound, hpw, hbound, hfresh, hnodup, hranks, hge => by
    simp only [List.foldl_cons]
    have hnd := List.nodup_cons.mp (show (r.docId :: kr.map LegHit.docId).Nodup by
      simpa using hnodup)
    have hrk := List.pairwise_cons.mp
      (show (r.rank :: kr.map LegHit.rank).Pairwise (· < ·) by simpa using hranks)
    have hge' : ∀ x ∈ kr, r.rank + 1 ≤ x.rank := by
      intro x hx
      exact hrk.1 x.rank (List.mem_map_of_mem LegHit.rank hx)
    have hvrfact : ∀ e ∈ acc, e.docId = r.docId → e.vectorRank ≠ none := by
      intro e he hid hnone
      exact hfresh e he hnone r (List.mem_cons_self _ _) hid
    by_cases hmem : acc.any (fun e => e.docId == r.docId) = true
    · -- an existing entry is updated in place
      rw [show addKeywordResult acc r = acc.map (fun e =>
          if e.docId == r.docId then
            { e with keywordScore := some r.score, keywordRank := some r.rank,
                     hasKeyword := true }
          else e) from by rw [addKeywordResult, if_pos hmem]]
      have huntouched : ∀ e ∈ acc, e.vectorRank = none →
          (if e.docId == r.docId then
            { e with keywordScore := some r.score, keywordRank := some r.rank,
                     hasKeyword := true }
          else e) = e := by
        intro e he hnone
        rw [if_neg]
        simp only [beq_iff_eq]
        intro hid
        exact hvrfact e he hid hnone
      apply foldl_addKeyword_pairwise kr _ (r.rank + 1)
      · rw [List.pairwise_map]
        refine hpw.imp_of_mem ?_
        intro a b ha hb hab
        rcases hab with hlt | ⟨han, hbn, hkk⟩
        · left
          have hva : (if a.docId == r.docId then
              { a with keywordScore := some r.score, keywordRank := some r.rank,
                       hasKeyword := true } else a).vectorRank = a.vectorRank := by
            split <;> rfl
          have hvb : (if b.docId == r.docId then
              { b with keywordScore := some r.score, keywordRank := some r.rank,
                       hasKeyword := true } else b).vectorRank = b.vectorRank := by
            split <;> rfl
          rw [hva, hvb]
          exact hlt
        · rw [huntouched a ha han, huntouched b hb hbn]
          exact Or.inr ⟨han, hbn, hkk⟩
      · intro e' he' hnone'
        rcases List.mem_map.mp he' with ⟨e, he, rfl⟩
        have hvre : (if e.docId == r.docId then
            { e with keywordScore := some r.score, keywordRank := some r.rank,
                     hasKeyword := true } else e).vectorRank = e.vectorRank := by
          split <;> rfl
        rw [hvre] at hnone'
        rw [huntouched e he hnone']
        rcases hbound e he hnone' with ⟨rk, hk1, hk2⟩
        have : bound ≤ r.rank := hge r (List.mem_cons_self _ _)
        exact ⟨rk, hk1, by omega⟩
      · intro e' he' hnone' r2 hr2
        rcases List.mem_map.mp he' with ⟨e, he, rfl⟩
        have hvre : (if e.docId == r.docId then
            { e with keywordScore := some r.score, keywordRank := some r.rank,
                     hasKeyword := true } else e).vectorRank = e.vectorRank := by
          split <;> rfl
        rw [hvre] at hnone'
        rw [huntouched e he hnone']
        exact hfresh e he hnone' r2 (List.mem_cons_of_mem _ hr2)
      · exact hnd.2
      · exact hrk.2
      · exact hge'
    · -- a fresh keyword-only entry is appended
      rw [show addKeywordResult acc r = acc ++ [mkKeywordEntry r] from by
        rw [addKeywordResult, if_neg hmem]]
      apply foldl_addKeyword_pairwise kr _ (r.rank + 1)
      · rw [List.pairwise_append]
        refine ⟨hpw, by simp, ?_⟩
        intro a ha b hb
        rw [List.mem_singleton] at hb
        subst hb
        rcases hvr : a.vectorRank with _ | v
        · rcases hbound a ha hvr with ⟨rk, hk1, hk2⟩
          refine Or.inr ⟨hvr, rfl, ?_⟩
          rw [hk1]
          show ((rk : WithTop ℕ)) < ((r.rank : ℕ) : WithTop ℕ)
          exact_mod_cast lt_of_lt_of_le hk2 (hge r (List.mem_cons_self _ _))
        · left
          rw [hvr]
          exact WithTop.coe_lt_top v
      · intro e' he' hnone'
        rcases List.mem_append.mp he' with he | he
        · rcases hbound e' he hnone' with ⟨rk, hk1, hk2⟩
          have : bound ≤ r.rank := hge r (List.mem_cons_self _ _)
          exact ⟨rk, hk1, by omega⟩
        · rw [List.mem_singleton] at he
          subst he
          exact ⟨r.rank, rfl, by omega⟩
      · intro e' he' hnone' r2 hr2
        rcases List.mem_append.mp he' with he | he
        · exact hfresh e' he hnone' r2 (List.mem_cons_of_mem _ hr2)
        · rw [List.mem_singleton] at he
          subst he
          intro hEq
          apply hnd.1
          rw [show r.docId = r2.docId from hEq]
          exact List.mem_map_of_mem LegHit.docId hr2
      · exact hnd.2
      · exact hrk.2
      · exact hge'

/-- The union built by `_rerank_results` from well-formed legs satisfies the
insertion-order invariant. -/
theorem mergeResults_pairwise (vr kr : List LegHit)
    (hv : LegWellFormed vr) (hk : LegWellFormed kr) :
    (mergeResults vr kr).Pairwise strongStrict := by
  unfold mergeResults
  rw [foldl_addVector_eq vr [] (by simp) hv.1, List.nil_append]
  apply foldl_addKeyword_pairwise kr (vr.map mkVectorEntry) 0
  · rw [List.pairwise_map]
    have h2 := hv.2
    rw [List.pairwise_map] at h2
    refine h2.imp ?_
    intro a b hab
    left
    show ((a.rank : ℕ) : WithTop ℕ) < ((b.rank : ℕ) : WithTop ℕ)
    exact_mod_cast hab
  · intro e he hnone
    rcases List.mem_map.mp he with ⟨x, -, rfl⟩
    exact absurd hnone (by simp [mkVectorEntry])
  · intro e he hnone
    rcases List.mem_map.mp he with ⟨x, -, rfl⟩
    exact absurd hnone (by simp [mkVectorEntry])
  · exact hk.1
  · exact hk.2
  · intro r _
    exact Nat.zero_le _

/-- Replacing only the combined score preserves the insertion-order
invariant. -/
theorem pairwise_map_preserve {l : List FusionEntry} (f : FusionEntry → FusionEntry)
    (hf : ∀ e, (f e).vectorRank = e.vectorRank ∧ (f e).keywordRank = e.keywordRank)
    (h : l.Pairwise strongStrict) : (l.map f).Pairwise strongStrict := by
  rw [List.pairwise_map]
  refine h.imp ?_
  intro a b hab
  unfold strongStrict at hab ⊢
  rw [(hf a).1, (hf b).1, (hf a).2, (hf b).2]
  exact hab

/-- Every fusion rule preserves the insertion-order invariant: each one maps
the union list in place, touching only the combined score and flags. -/
theorem applyFusion_pairwise (cfg : HybridConfig) (q : String)
    {l : List FusionEntry} (h : l.Pairwise strongStrict) :
    (applyFusion cfg q l).Pairwise strongStrict := by
  unfold applyFusion
  split_ifs <;> exact pairwise_map_preserve _ (fun e => ⟨rfl, rfl⟩) h

/-- The insertion-order invariant forces a strict step of the rank/doc-id part
of the specified sort key. -/
theorem strongStrict_rankTriple_lt {a b : FusionEntry} (h : strongStrict a b) :
    toLex (rankKey a.vectorRank, toLex (rankKey a.keywordRank, a.docId.data)) <
      toLex (rankKey b.vectorRank, toLex (rankKey b.keywordRank, b.docId.data)) := by
  rcases h with h | ⟨han, hbn, hk⟩
  · exact (Prod.Lex.lt_iff _ _).mpr (Or.inl h)
  · refine (Prod.Lex.lt_iff _ _).mpr (Or.inr ⟨by rw [han, hbn], ?_⟩)
    exact (Prod.Lex.lt_iff _ _).mpr (Or.inl hk)

/-- The stable descending sort of the code equals the sort by the specified
key whenever the input satisfies the insertion-order invariant. -/
theorem stableSort_eq_specSort (l : List FusionEntry) (hpw : l.Pairwise strongStrict) :
    pyStableSortByCombinedDesc l =
      List.insertionSort (fun a b => specSortKey a ≤ specSortKey b) l := by
  haveI : IsTotal (ℕ × FusionEntry) (fun a b => stableSortKey a ≤ stableSortKey b) :=
    ⟨fun _ _ => le_total _ _⟩
  haveI : IsTrans (ℕ × FusionEntry) (fun a b => stableSortKey a ≤ stableSortKey b) :=
    ⟨fun _ _ _ => le_trans⟩
  haveI : IsTotal FusionEntry (fun a b => specSortKey a ≤ specSortKey b) :=
    ⟨fun _ _ => le_total _ _⟩
  haveI : IsTrans FusionEntry (fun a b => specSortKey a ≤ specSortKey b) :=
    ⟨fun _ _ _ => le_trans⟩
  have hperm1 : (pyStableSortByCombinedDesc l).Perm l := by
    unfold pyStableSortByCombinedDesc
    have hp := (List.perm_insertionSort
      (fun a b => stableSortKey a ≤ stableSortKey b) l.enum).map Prod.snd
    rwa [List.enum_map_snd] at hp
  have hperm2 := List.perm_insertionSort (fun a b => specSortKey a ≤ specSortKey b) l
  have hsorted1 := List.sorted_insertionSort
    (fun a b => stableSortKey a ≤ stableSortKey b) l.enum
  have hfst : (List.insertionSort (fun a b => stableSortKey a ≤ stableSortKey b)
      l.enum).Pairwise (fun p q => p.1 ≠ q.1) := by
    have hnd : ((List.insertionSort (fun a b => stableSortKey a ≤ stableSortKey b)
        l.enum).map Prod.fst).Nodup := by
      have hp := (List.perm_insertionSort
        (fun a b => stableSortKey a ≤ stableSortKey b) l.enum).map Prod.fst
      rw [List.enum_map_fst] at hp
      exact (List.nodup_range _).perm hp.symm
    exact List.pairwise_map.mp hnd
  have hP1 : (pyStableSortByCombinedDesc l).Pairwise
      (fun a b => specSortKey a ≤ specSortKey b) := by
    unfold pyStableSortByCombinedDesc
    rw [List.pairwise_map]
    refine (hsorted1.and hfst).imp_of_mem ?_
    rintro ⟨i, a⟩ ⟨j, b⟩ hia hjb ⟨hr, hne⟩
    rw [List.mem_insertionSort] at hia hjb
    unfold stableSortKey at hr
    rcases (Prod.Lex.le_iff _ _).mp hr with hlt | ⟨heq, hle⟩
    · exact le_of_lt ((Prod.Lex.lt_iff _ _).mpr (Or.inl hlt))
    · have hij : i < j := lt_of_le_of_ne hle (by simpa using hne)
      have ha := List.mk_mem_enum_iff_getElem?.mp hia
      have hb := List.mk_mem_enum_iff_getElem?.mp hjb
      rcases List.getElem?_eq_some_iff.mp ha with ⟨hi, hae⟩
      rcases List.getElem?_eq_some_iff.mp hb with ⟨hj, hbe⟩
      have hss : strongStrict l[i] l[j] := List.pairwise_iff_getElem.mp hpw i j hi hj hij
      rw [hae, hbe] at hss
      exact le_of_lt ((Prod.Lex.lt_iff _ _).mpr
        (Or.inr ⟨heq, strongStrict_rankTriple_lt hss⟩))
  have hP2 := List.sorted_insertionSort (fun a b => specSortKey a ≤ specSortKey b) l
  refine List.Perm.eq_of_sorted ?_ hP1 hP2 (hperm1.trans hperm2.symm)
  intro a b ha hb h1 h2
  have ha2 : a ∈ l := hperm1.subset ha
  have hb2 : b ∈ l := hperm2.subset hb
  have hkey : specSortKey a = specSortKey b := le_antisymm h1 h2
  by_contra hne
  have hpair := toLex_inj.mp (show toLex _ = toLex _ from hkey)
  have hinner := toLex_inj.mp (congrArg Prod.snd hpair)
  have hv : rankKey a.vectorRank = rankKey b.vectorRank := congrArg Prod.fst hinner
  have hinner2 := toLex_inj.mp (congrArg Prod.snd hinner)
  have hkk : rankKey a.keywordRank = rankKey b.keywordRank := congrArg Prod.fst hinner2
  have hsym : Symmetric (fun x y : FusionEntry => strongStrict x y ∨ strongStrict y x) :=
    fun _ _ hxy => hxy.symm
  have hor := (hpw.imp fun h => Or.inl h).forall hsym ha2 hb2 hne
  rcases hor with hss | hss <;> rcases hss with hlt | ⟨han, hbn, hklt⟩
  · rw [hv] at hlt
    exact lt_irrefl _ hlt
  · rw [hkk] at hklt
    exact lt_irrefl _ hklt
  · rw [hv] at hlt
    exact lt_irrefl _ hlt
  · rw [hkk] at hklt
    exact lt_irrefl _ hklt

/-- Every fusion rule maps the empty union to the empty list. -/
theorem applyFusion_nil (cfg : HybridConfig) (q : String) : applyFusion cfg q [] = [] := by
  unfold applyFusion weightedSumRerank rrfRerank
  split_ifs <;> rfl

/-- Claim C4: for every pair of well-formed dense and sparse result sets and
every fusion configuration, `_rerank_results` returns exactly the top `k` of
the fused union sorted by combined score descending with ties broken by lower
dense rank, then lower sparse rank, then lexicographically smaller `doc_id` —
the ordering spelled out by `specSortKey`/`specRerank`.  The code realizes the
tie-break through Python's stable sort over dict insertion order; the two
orders agree because the union lists dense-ranked entries first, each leg in
strictly increasing rank order. -/
theorem rerank_matches_spec_order (cfg : HybridConfig) (query : String)
    (vr kr : List LegHit) (k : ℕ)
    (hv : LegWellFormed vr) (hk : LegWellFormed kr) :
    rerankResults cfg query vr kr k = specRerank cfg query vr kr k := by
  unfold rerankResults specRerank
  by_cases hempty : (vr.isEmpty && kr.isEmpty) = true
  · rw [if_pos hempty]
    obtain ⟨hb1, hb2⟩ : vr.isEmpty = true ∧ kr.isEmpty = true := by simpa using hempty
    have h1 : vr = [] := List.isEmpty_iff.mp hb1
    have h2 : kr = [] := List.isEmpty_iff.mp hb2
    subst h1
    subst h2
    rw [show mergeResults ([] : List LegHit) [] = [] from rfl, applyFusion_nil]
    simp
  · rw [if_neg hempty]
    rw [stableSort_eq_specSort (applyFusion cfg query (mergeResults vr kr))
      (applyFusion_pairwise cfg query (mergeResults_pairwise vr kr hv hk))]

/-- A concrete configuration for the C4 witness. -/
def hybridCfgWitness : HybridConfig := ⟨3/5, 2/5, true, 20, 20, 10, "rrf"⟩

/-- A concrete dense leg (strictly increasing ranks, distinct ids). -/
def vectorLegWitness : List LegHit := [⟨"d1", 9/10, 1⟩, ⟨"d2", 1/2, 2⟩]

/-- A concrete sparse leg sharing one document with the dense leg. -/
def keywordLegWitness : List LegHit := [⟨"d2", 3, 1⟩, ⟨"d3", 2, 2⟩]

/-- Claim C4 witness: the re-ranker agreement evaluated on concrete
well-formed legs. -/
theorem rerank_matches_spec_order_witness :
    rerankResults hybridCfgWitness "gejala" vectorLegWitness keywordLegWitness 2 =
      specRerank hybridCfgWitness "gejala" vectorLegWitness keywordLegWitness 2 :=
  rerank_matches_spec_order hybridCfgWitness "gejala" vectorLegWitness keywordLegWitness 2
    ⟨by decide, by decide⟩ ⟨by decide, by decide⟩

end Anamnesa
